import Mathlib

/-!
# Verification of the gamma-spectra denoising harness

Shallow embedding of the training/inference harness of the repository
(`train.py`, `denoise.py`): checkpoint metadata, standardization,
the training-controller loop with early stopping, the inference-time
reconstruction of the denoised signal, the data splitter, and the seed
fallback logic.  Real-valued data is embedded as rationals; the machine
floats of the source are exact in every computation the claims touch.
-/

namespace GammaSpectra

/-! ## Checkpoint metadata (train.py lines 125-132; denoise.py lines 86-92, 112-126)

`train.py` builds the dictionary `model_params` (lines 125-128) and pickles
`{'model': model_params, 'train': [], 'val': [], 'psnr': []}` as the sibling
metadata artifact of the weights file.  `denoise.py` unpickles the `'model'`
entry (line 86) and indexes it with `['train_mean']`, `['train_std']`,
`['train_seed']`, `['model_name']`, `['model_type']`, `['num_channels']`, ... .
A Python `dict[k]` lookup is modelled as an association-list lookup returning
`Option`: `none` models the `KeyError` raised on a missing key. -/

inductive MetaVal where
  | nat (n : ℕ)
  | rat (q : ℚ)
  | str (s : String)
deriving DecidableEq

/-- The `model_params` dictionary literal of train.py lines 125-128: exactly
the keys `num_channels`, `num_layers`, `kernel_size`, `stride`,
`num_filters`, `train_mean`, `train_std`, in source order. -/
def modelParams (numChannels numLayers kernelSize stride numFilters : ℕ)
    (trainMean trainStd : ℚ) : List (String × MetaVal) :=
  [("num_channels", MetaVal.nat numChannels),
   ("num_layers", MetaVal.nat numLayers),
   ("kernel_size", MetaVal.nat kernelSize),
   ("stride", MetaVal.nat stride),
   ("num_filters", MetaVal.nat numFilters),
   ("train_mean", MetaVal.rat trainMean),
   ("train_std", MetaVal.rat trainStd)]

/-- Python `params[k]`: first binding of key `k`, `none` models `KeyError`. -/
def lookupParam (ps : List (String × MetaVal)) (k : String) : Option MetaVal :=
  (ps.find? (fun p => p.1 == k)).map Prod.snd

/-! ## Standardizer (train.py lines 89-95; denoise.py lines 88-89, 145)

train.py computes `train_mean = np.mean(x_train)`, `train_std = np.std(x_train)`
and applies `(x - train_mean)/train_std` with **no** guard on `train_std`.
`np.std` is the square root of `trainVariance` below, so `train_std = 0`
exactly when `trainVariance = 0`.  The `Except` result type makes the error
channel that the spec postulates (`InvalidParameterError`) expressible; the
source never takes it: `standardizeInputs` is `.ok` unconditionally. -/

def trainMean (xs : List ℚ) : ℚ := xs.sum / xs.length

/-- Population variance, `np.std x = Real.sqrt (trainVariance x)`;
in particular `np.std x = 0 ↔ trainVariance x = 0`. -/
def trainVariance (xs : List ℚ) : ℚ :=
  ((xs.map (fun a => (a - trainMean xs) ^ 2)).sum) / xs.length

inductive TrainError where
  | invalidParameter (msg : String)
deriving DecidableEq

/-- train.py lines 94-95: `x = (x - train_mean)/train_std`, applied
unconditionally — there is no `std == 0` check in the source, so the
function returns `.ok` on every input, including `std = 0`. -/
def standardizeInputs (xs : List ℚ) (mean std : ℚ) : Except TrainError (List ℚ) :=
  Except.ok (xs.map (fun a => (a - mean) / std))

def isOkE {ε α : Type} : Except ε α → Bool
  | Except.ok _ => true
  | Except.error _ => false

/-- Elementwise standardization of one spectrum, `(a - mean)/std`
(train.py lines 94-95; denoise.py line 145 inline in the model call). -/
def standardizeList (mean std : ℚ) (xs : List ℚ) : List ℚ :=
  xs.map (fun a => (a - mean) / std)

/-! ## Training controller (train.py lines 141-245)

The loop is embedded with the per-epoch numerical work abstracted into a
sequence `v : ℕ → FV` of epoch validation losses (`epoch_val_loss` after the
line-196 division), since only that value steers the control flow of lines
220-231.  `FV` models an IEEE value that may be NaN: in Python
`nan < best_val_loss` is `False`, which `fvLt` reproduces.
The controller state is train.py lines 142-144: `best_val_loss = 99999`,
`best_psnr = 0`, `epochs_since_improvement = 0`.  `bestSaves` records the
epochs at which the "best" checkpoint was written (lines 221-225),
`historyVal` the per-epoch `history['val']` appends (line 207), `finalSaved`
the unconditional final save after the loop (lines 242-245), `earlyStopped`
whether the line-231 `break` was taken. -/

inductive FV where
  | fin (q : ℚ)
  | nan
deriving DecidableEq

/-- IEEE `<` on possibly-NaN values: any comparison with NaN is false. -/
def fvLt : FV → FV → Bool
  | FV.fin a, FV.fin b => decide (a < b)
  | _, _ => false

structure RunResult where
  epochsCompleted : ℕ
  historyVal : List FV
  bestValLoss : FV
  bestSaves : List ℕ
  finalSaved : Bool
  earlyStopped : Bool
deriving DecidableEq

/-- One-to-one image of the `for epoch in range(args.epochs)` loop of
train.py lines 147-231 followed by the unconditional final save of lines
242-245.  `fuel` is the number of epochs still allowed by `range(args.epochs)`;
`e` the current epoch index.  Each epoch appends to the history (line 207),
tests `epoch_val_loss < best_val_loss` (line 220), on improvement saves
"best" and resets the counter (lines 222-225), otherwise increments it
(line 227), and breaks once `epochs_since_improvement > patience`
(lines 229-231).  Every terminal path sets `finalSaved := true`. -/
def runEpochs (v : ℕ → FV) (p : ℕ) :
    ℕ → ℕ → FV → ℕ → List FV → List ℕ → RunResult
  | 0, e, best, _, hist, saves =>
      ⟨e, hist, best, saves, true, false⟩
  | fuel + 1, e, best, esi, hist, saves =>
      let loss := v e
      let improved := fvLt loss best
      let best' := if improved then loss else best
      let saves' := if improved then saves ++ [e] else saves
      let esi' := if improved then 0 else esi + 1
      let hist' := hist ++ [loss]
      if p < esi' then ⟨e + 1, hist', best', saves', true, true⟩
      else runEpochs v p fuel (e + 1) best' esi' hist' saves'

/-- train.py line 142: `best_val_loss = 99999` — a finite literal,
not `+∞`. -/
def initialBestValLoss : FV := FV.fin 99999

/-- The whole training run of train.py: `args.epochs` epochs of fuel,
starting at epoch 0 with `best_val_loss = 99999` and
`epochs_since_improvement = 0` (lines 142-144). -/
def trainRun (v : ℕ → FV) (patience maxEpochs : ℕ) : RunResult :=
  runEpochs v patience maxEpochs 0 initialBestValLoss 0 [] []

/-! ## Inference reconstruction (denoise.py lines 112-120, 153-157) -/

inductive ModelArch where
  | dncnn
  | dncnnRes
deriving DecidableEq

/-- denoise.py lines 112-120: the architecture is selected from
`params['model_name']`; an unsupported name prints a message and
`return 1` (modelled as `.error 1`). -/
def selectModel (modelName : String) : Except ℕ ModelArch :=
  if modelName = "DnCNN" then Except.ok ModelArch.dncnn
  else if modelName = "DnCNN-res" then Except.ok ModelArch.dncnnRes
  else Except.error 1

/-- denoise.py lines 154-157:
`if params['model_type'] == 'Gen-spectrum': denoised = preds
 else: denoised = noisy_spectra - preds`.
The `else` arm catches every string other than `"Gen-spectrum"`; there is no
error arm for an unrecognized model type. -/
def reconstruct (modelType : String) (noisy preds : List ℚ) : List ℚ :=
  if modelType = "Gen-spectrum" then preds
  else List.zipWith (fun a b => a - b) noisy preds

/-! ## Splitter (train.py line 86; denoise.py line 100)

Both files call `sklearn.model_selection.train_test_split(noisy, clean,
test_size=0.1, random_state=seed)`.

Modelled from the spec: `train_test_split` is an external sklearn function
(not part of this repository's sources).  Per its documented behaviour with
`shuffle=True` and a fixed `random_state`, it draws a permutation of
`[0, n)` from a PRNG seeded only by `seed`, takes the first
`⌈0.1·n⌉` permuted positions as the test (here: validation) block and the
rest as the train block — a function of `(n, seed, fraction)` alone, never
of the array values.  The PRNG permutation is modelled by a concrete
LCG-driven selection shuffle; the claims only use that it depends on
`(n, seed)` and that it is a permutation of `List.range n`. -/

def lcgNext (s : ℕ) : ℕ := (1103515245 * s + 12345) % 2147483648

/-- Selection shuffle: repeatedly extract the element at a PRNG-chosen
position.  `fuel` bounds the recursion by the list length. -/
def shuffleList : ℕ → List ℕ → ℕ → List ℕ
  | 0, _, _ => []
  | _ + 1, [], _ => []
  | fuel + 1, x :: rest, s =>
      let xs := x :: rest
      let s' := lcgNext s
      let k := s' % xs.length
      xs.getD k 0 :: shuffleList fuel (xs.take k ++ xs.drop (k + 1)) s'

/-- The seeded permutation of indices `[0, n)`. -/
def permIndices (n seed : ℕ) : List ℕ := shuffleList n (List.range n) seed

/-- `test_size = 0.1` → `n_test = ⌈0.1·n⌉`. -/
def numTest (n : ℕ) : ℕ := (n + 9) / 10

/-- Validation indices: the first `numTest n` permuted positions. -/
def valIndices (n seed : ℕ) : List ℕ := (permIndices n seed).take (numTest n)

/-- Train indices: the remaining permuted positions. -/
def trainIndices (n seed : ℕ) : List ℕ := (permIndices n seed).drop (numTest n)

def selectRows (xs : List (List ℚ)) (idx : List ℕ) : List (List ℚ) :=
  idx.map (fun i => xs.getD i [])

/-- `x_train, x_val, y_train, y_val = train_test_split(noisy, clean,
test_size=0.1, random_state=seed)` (train.py line 86, denoise.py line 100):
the same index partition — computed from the length and the seed only —
is applied to both arrays. -/
def train_test_split (noisy clean : List (List ℚ)) (seed : ℕ) :
    List (List ℚ) × List (List ℚ) × List (List ℚ) × List (List ℚ) :=
  (selectRows noisy (trainIndices noisy.length seed),
   selectRows noisy (valIndices noisy.length seed),
   selectRows clean (trainIndices noisy.length seed),
   selectRows clean (valIndices noisy.length seed))

/-! ## Seed fallback (denoise.py lines 52, 91-92)

`--seed` has `type=int` and no default, so `args.seed` is `None` when
absent.  Line 91: `if not args.seed: args.seed = params['train_seed']` —
Python truthiness makes both `None` and `0` falsy, every nonzero int
truthy. -/

def effectiveSeed (argSeed : Option ℤ) (trainSeed : ℤ) : ℤ :=
  match argSeed with
  | none => trainSeed
  | some s => if s = 0 then trainSeed else s

/-! ## Metrics and dataflow (train.py lines 90-103, 162-165; denoise.py
lines 138-164)

`psnr(ref, cand, data_range=1) = -10·log10(sqErrSum ref cand / length)`
per example: the per-example squared-error sums determine the PSNR values,
and the logarithm itself is outside a rational embedding, so the metric
evaluator is embedded down to the squared-error level.  The batch loss of
train.py line 165 is `MSELoss(reduction='sum')(preds, clean)/(2·len(batch))`
with `preds = model(standardized noisy)` and `clean` the raw targets. -/

def sqErrSum (a b : List ℚ) : ℚ :=
  (List.zipWith (fun x y => (x - y) ^ 2) a b).sum

/-- One per-example squared-error sum per batch row; `psnr_of_batch`
(both files, lines 31-35 / 38-42) averages the strictly decreasing
per-example function of these values. -/
def perExampleSqErr (ref cand : List (List ℚ)) : List ℚ :=
  List.zipWith sqErrSum ref cand

/-- train.py lines 154-166: one training batch.  The loader rows are the
standardized noisy inputs (standardized once at line 94) paired with the
**raw** clean targets (line 102); the loss compares the model output with
the raw targets. -/
def trainBatchLoss (model : List ℚ → List ℚ) (mean std : ℚ)
    (noisyB cleanB : List (List ℚ)) : ℚ :=
  (List.zipWith (fun x y => sqErrSum (model (standardizeList mean std x)) y)
     noisyB cleanB).sum / (2 * noisyB.length)

structure InferBatchOut where
  denoised : List (List ℚ)
  sqErrNoisy : List ℚ
  sqErrDenoised : List ℚ
deriving DecidableEq

/-- denoise.py lines 138-164: one inference batch.  The model is applied to
`(noisy - train_mean)/train_std` (line 145); the baseline metric compares
raw clean with raw noisy (line 151); the reconstruction branch of lines
154-157 uses the raw noisy signal and the raw model output; the post-model
metric compares raw clean with the reconstruction (line 162).  The raw
output is never de-standardized anywhere. -/
def inferBatch (modelType : String) (mean std : ℚ) (model : List ℚ → List ℚ)
    (noisyB cleanB : List (List ℚ)) : InferBatchOut :=
  let predsB := noisyB.map (fun x => model (standardizeList mean std x))
  let denoisedB :=
    if modelType = "Gen-spectrum" then predsB
    else List.zipWith (fun x p => List.zipWith (fun a b => a - b) x p) noisyB predsB
  ⟨denoisedB, perExampleSqErr cleanB noisyB, perExampleSqErr cleanB denoisedB⟩

/-! ## Theorems -/

/-! ### Helper lemmas about the training loop -/

theorem mapShift {α : Type} (g : ℕ → α) (e m : ℕ) :
    (List.range (m + 1)).map (fun i => g (e + i))
      = g e :: (List.range m).map (fun i => g (e + 1 + i)) := by
  rw [List.range_succ_eq_map, List.map_cons, List.map_map]
  have h1 : g (e + 0) = g e := by rw [Nat.add_zero]
  have h2 : ((fun i => g (e + i)) ∘ Nat.succ) = fun i => g (e + 1 + i) :=
    funext fun i => congrArg g (by omega)
  rw [h1, h2]

theorem rangeShift (e m : ℕ) :
    (List.range (m + 1)).map (fun i => e + i)
      = e :: (List.range m).map (fun i => e + 1 + i) :=
  mapShift (fun x => x) e m

/-- One unfolding of the epoch loop. -/
theorem runEpochs_succ (v : ℕ → FV) (p fuel e : ℕ) (best : FV) (esi : ℕ)
    (hist : List FV) (saves : List ℕ) :
    runEpochs v p (fuel + 1) e best esi hist saves
      = (let improved := fvLt (v e) best
         let best' := if improved then v e else best
         let saves' := if improved then saves ++ [e] else saves
         let esi' := if improved then 0 else esi + 1
         let hist' := hist ++ [v e]
         if p < esi' then ⟨e + 1, hist', best', saves', true, true⟩
         else runEpochs v p fuel (e + 1) best' esi' hist' saves') := rfl

/-- An improving epoch: save "best", reset the counter, continue. -/
theorem runEpochs_step_improve (v : ℕ → FV) (p fuel e : ℕ) (best : FV)
    (esi : ℕ) (hist : List FV) (saves : List ℕ)
    (h : fvLt (v e) best = true) :
    runEpochs v p (fuel + 1) e best esi hist saves
      = runEpochs v p fuel (e + 1) (v e) 0 (hist ++ [v e]) (saves ++ [e]) := by
  rw [runEpochs_succ]
  simp [h]

/-- A non-improving epoch with the counter still within patience. -/
theorem runEpochs_step_noimprove_continue (v : ℕ → FV) (p fuel e : ℕ)
    (best : FV) (esi : ℕ) (hist : List FV) (saves : List ℕ)
    (h : fvLt (v e) best = false) (hp : esi + 1 ≤ p) :
    runEpochs v p (fuel + 1) e best esi hist saves
      = runEpochs v p fuel (e + 1) best (esi + 1) (hist ++ [v e]) saves := by
  rw [runEpochs_succ]
  simp [h, Nat.not_lt.mpr hp]

/-- A non-improving epoch that exhausts the patience: early stop, with the
final checkpoint written. -/
theorem runEpochs_step_noimprove_break (v : ℕ → FV) (p fuel e : ℕ)
    (best : FV) (esi : ℕ) (hist : List FV) (saves : List ℕ)
    (h : fvLt (v e) best = false) (hp : p < esi + 1) :
    runEpochs v p (fuel + 1) e best esi hist saves
      = ⟨e + 1, hist ++ [v e], best, saves, true, true⟩ := by
  rw [runEpochs_succ]
  simp [h, hp]

/-- A block of `m + 1` consecutive improving epochs advances the loop to
epoch `e + m + 1` with the best loss set to the last epoch's loss and the
counter reset. -/
theorem runEpochs_improving_phase (v : ℕ → FV) (p : ℕ) :
    ∀ (m fuel e : ℕ) (best : FV) (esi : ℕ) (hist : List FV) (saves : List ℕ),
      m + 1 ≤ fuel →
      fvLt (v e) best = true →
      (∀ i, i + 1 ≤ m → fvLt (v (e + i + 1)) (v (e + i)) = true) →
      runEpochs v p fuel e best esi hist saves
        = runEpochs v p (fuel - (m + 1)) (e + m + 1) (v (e + m)) 0
            (hist ++ (List.range (m + 1)).map (fun i => v (e + i)))
            (saves ++ (List.range (m + 1)).map (fun i => e + i)) := by
  intro m
  induction m with
  | zero =>
    intro fuel e best esi hist saves hfuel h0 _
    obtain ⟨f, rfl⟩ : ∃ f, fuel = f + 1 := ⟨fuel - 1, by omega⟩
    rw [runEpochs_step_improve v p f e best esi hist saves h0]
    simp [List.range_succ]
  | succ m ih =>
    intro fuel e best esi hist saves hfuel h0 hstep
    obtain ⟨f, rfl⟩ : ∃ f, fuel = f + 1 := ⟨fuel - 1, by omega⟩
    rw [runEpochs_step_improve v p f e best esi hist saves h0]
    have h0' : fvLt (v (e + 1)) (v e) = true := by
      have h := hstep 0 (by omega)
      have he : e + 0 + 1 = e + 1 := by omega
      have he' : e + 0 = e := by omega
      rw [he, he'] at h
      exact h
    have hstep' : ∀ i, i + 1 ≤ m → fvLt (v (e + 1 + i + 1)) (v (e + 1 + i)) = true := by
      intro i hi
      have h := hstep (i + 1) (by omega)
      have he : e + (i + 1) + 1 = e + 1 + i + 1 := by omega
      have he' : e + (i + 1) = e + 1 + i := by omega
      rw [he, he'] at h
      exact h
    rw [ih f (e + 1) (v e) 0 (hist ++ [v e]) (saves ++ [e]) (by omega) h0' hstep']
    have hfu : f - (m + 1) = f + 1 - (m + 1 + 1) := by omega
    have he1 : e + 1 + m + 1 = e + (m + 1) + 1 := by omega
    have he2 : e + 1 + m = e + (m + 1) := by omega
    rw [hfu, he1, he2, mapShift v e (m + 1), rangeShift e (m + 1),
        List.append_assoc, List.append_assoc, List.singleton_append,
        List.singleton_append]

/-- A block of `m` consecutive non-improving epochs that exactly exhausts
the patience budget ends the run by early stopping, with the final
checkpoint written and the best state untouched. -/
theorem runEpochs_flat_phase (v : ℕ → FV) (p : ℕ) :
    ∀ (m fuel e : ℕ) (best : FV) (esi : ℕ) (hist : List FV) (saves : List ℕ),
      m ≤ fuel →
      esi + m = p + 1 →
      esi ≤ p →
      (∀ i, i < m → fvLt (v (e + i)) best = false) →
      runEpochs v p fuel e best esi hist saves
        = ⟨e + m, hist ++ (List.range m).map (fun i => v (e + i)), best, saves,
           true, true⟩ := by
  intro m
  induction m with
  | zero =>
    intro fuel e best esi hist saves _ h1 h2 _
    exfalso
    omega
  | succ m ih =>
    intro fuel e best esi hist saves hfuel hsum hesi hflat
    obtain ⟨f, rfl⟩ : ∃ f, fuel = f + 1 := ⟨fuel - 1, by omega⟩
    have h0 : fvLt (v e) best = false := by
      have h := hflat 0 (by omega)
      have he : e + 0 = e := by omega
      rw [he] at h
      exact h
    by_cases hc : p < esi + 1
    · have hm : m = 0 := by omega
      subst hm
      rw [runEpochs_step_noimprove_break v p f e best esi hist saves h0 hc]
      simp [List.range_succ]
    · rw [runEpochs_step_noimprove_continue v p f e best esi hist saves h0
          (by omega)]
      have hflat' : ∀ i, i < m → fvLt (v (e + 1 + i)) best = false := by
        intro i hi
        have h := hflat (i + 1) (by omega)
        have he : e + (i + 1) = e + 1 + i := by omega
        rw [he] at h
        exact h
      rw [ih f (e + 1) best (esi + 1) (hist ++ [v e]) saves (by omega)
          (by omega) (by omega) hflat']
      have he1 : e + 1 + m = e + (m + 1) := by omega
      rw [he1, mapShift v e m, List.append_assoc, List.singleton_append]

/-- Epochs already recorded as "best" saves stay recorded. -/
theorem runEpochs_saves_mono (v : ℕ → FV) (p : ℕ) :
    ∀ (fuel e : ℕ) (best : FV) (esi : ℕ) (hist : List FV) (saves : List ℕ)
      (x : ℕ), x ∈ saves →
      x ∈ (runEpochs v p fuel e best esi hist saves).bestSaves := by
  intro fuel
  induction fuel with
  | zero =>
    intro e best esi hist saves x hx
    exact hx
  | succ f ih =>
    intro e best esi hist saves x hx
    cases him : fvLt (v e) best with
    | true =>
      rw [runEpochs_step_improve v p f e best esi hist saves him]
      exact ih (e + 1) (v e) 0 (hist ++ [v e]) (saves ++ [e]) x
        (List.mem_append_left _ hx)
    | false =>
      by_cases hp : p < esi + 1
      · rw [runEpochs_step_noimprove_break v p f e best esi hist saves him hp]
        exact hx
      · rw [runEpochs_step_noimprove_continue v p f e best esi hist saves him
            (by omega)]
        exact ih (e + 1) best (esi + 1) (hist ++ [v e]) saves x hx

/-- Every epoch recorded as a "best" save during the remaining run was
either already recorded or is at least the current epoch index. -/
theorem runEpochs_saves_lb (v : ℕ → FV) (p : ℕ) :
    ∀ (fuel e : ℕ) (best : FV) (esi : ℕ) (hist : List FV) (saves : List ℕ)
      (x : ℕ), x ∈ (runEpochs v p fuel e best esi hist saves).bestSaves →
      x ∈ saves ∨ e ≤ x := by
  intro fuel
  induction fuel with
  | zero =>
    intro e best esi hist saves x hx
    exact Or.inl hx
  | succ f ih =>
    intro e best esi hist saves x hx
    cases him : fvLt (v e) best with
    | true =>
      rw [runEpochs_step_improve v p f e best esi hist saves him] at hx
      rcases ih (e + 1) (v e) 0 (hist ++ [v e]) (saves ++ [e]) x hx with h | h
      · rcases List.mem_append.mp h with h' | h'
        · exact Or.inl h'
        · right
          simp only [List.mem_singleton] at h'
          omega
      · right
        omega
    | false =>
      by_cases hp : p < esi + 1
      · rw [runEpochs_step_noimprove_break v p f e best esi hist saves him hp]
          at hx
        exact Or.inl hx
      · rw [runEpochs_step_noimprove_continue v p f e best esi hist saves him
            (by omega)] at hx
        rcases ih (e + 1) best (esi + 1) (hist ++ [v e]) saves x hx with h | h
        · exact Or.inl h
        · right
          omega

/-! ### Claim theorems -/

/-- C1 — the metadata dictionary written by train.py (lines 125-128) never
contains the keys `train_seed`, `model_name`, `model_type` that
denoise.py reads (lines 92, 112, 126, 154): all three lookups yield `none`
(a `KeyError` at runtime), while the keys train.py does write are present. -/
theorem trainMetadata_missing_inference_keys
    (nc nl ks st nf : ℕ) (tm ts : ℚ) :
    lookupParam (modelParams nc nl ks st nf tm ts) "train_seed" = none
    ∧ lookupParam (modelParams nc nl ks st nf tm ts) "model_name" = none
    ∧ lookupParam (modelParams nc nl ks st nf tm ts) "model_type" = none
    ∧ lookupParam (modelParams nc nl ks st nf tm ts) "train_mean"
        = some (MetaVal.rat tm)
    ∧ lookupParam (modelParams nc nl ks st nf tm ts) "train_std"
        = some (MetaVal.rat ts) := by
  refine ⟨rfl, rfl, rfl, rfl, rfl⟩

/-- C2 counterexample — the constant training set `[5,5,5,5]` has zero
variance, hence `np.std = 0`, and the standardization step of train.py
lines 94-95 still succeeds (no `InvalidParameterError` is raised): the code
silently divides by a zero standard deviation. -/
theorem zeroVariance_no_error_cex :
    trainVariance [5, 5, 5, 5] = 0
    ∧ isOkE (standardizeInputs [5, 5, 5, 5] (trainMean [5, 5, 5, 5]) 0) = true := by
  constructor
  · norm_num [trainVariance, trainMean]
  · rfl

/-- C3 counterexample — a run whose validation loss is NaN at every epoch
(patience 2, 100 allowed epochs) is not aborted: it runs through the
best-checkpoint comparison of every epoch, completes 3 epochs (continuing
past the first non-finite loss into subsequent epochs), early-stops
normally, and still writes the final checkpoint. -/
theorem nan_loss_run_continues_cex :
    (trainRun (fun _ => FV.nan) 2 100).epochsCompleted = 3
    ∧ (trainRun (fun _ => FV.nan) 2 100).historyVal
        = [FV.nan, FV.nan, FV.nan]
    ∧ (trainRun (fun _ => FV.nan) 2 100).finalSaved = true
    ∧ (trainRun (fun _ => FV.nan) 2 100).earlyStopped = true := by
  refine ⟨rfl, rfl, rfl, rfl⟩

/-- C5 counterexample — `best_val_loss` is initialized to the finite literal
`99999` (train.py line 142), not `+∞`: a first epoch with the finite
validation loss `100000` completes but is **not** persisted as the "best"
checkpoint (`bestSaves = []`), and the stored best loss remains the
initialization value. -/
theorem first_epoch_best_init_cex :
    (trainRun (fun _ => FV.fin 100000) 0 1).epochsCompleted = 1
    ∧ (trainRun (fun _ => FV.fin 100000) 0 1).bestSaves = []
    ∧ (trainRun (fun _ => FV.fin 100000) 0 1).bestValLoss = FV.fin 99999
    ∧ initialBestValLoss = FV.fin 99999 := by
  refine ⟨rfl, by decide, by decide, rfl⟩

/-- C2 amended — for every zero-variance (constant, nonempty) training set
the computed standard deviation is 0 and the standardization of train.py
lines 94-95 is still silently applied: the step succeeds, no
`InvalidParameterError` exists in the code. -/
theorem zeroVariance_standardization_silent (c : ℚ) (n : ℕ) (h : 0 < n) :
    trainVariance (List.replicate n c) = 0
    ∧ isOkE (standardizeInputs (List.replicate n c) c 0) = true := by
  constructor
  · have hn : (n : ℚ) ≠ 0 := Nat.cast_ne_zero.mpr (by omega)
    have hm : trainMean (List.replicate n c) = c := by
      simp only [trainMean, List.sum_replicate, List.length_replicate,
        nsmul_eq_mul]
      exact mul_div_cancel_left₀ c hn
    simp [trainVariance, hm, List.map_replicate, List.sum_replicate]
  · rfl

/-- C2 amended witness — the constant training set of three fives. -/
theorem zeroVariance_standardization_silent_witness :
    trainVariance (List.replicate 3 (5 : ℚ)) = 0
    ∧ isOkE (standardizeInputs (List.replicate 3 (5 : ℚ)) 5 0) = true :=
  zeroVariance_standardization_silent 5 3 (by omega)

/-- C3 amended — a non-finite loss is never detected: with NaN validation
loss at every epoch the NaN compares as "no improvement" in the
best-checkpoint test, the run continues through `patience + 1` full epochs,
early-stops normally, never writes a "best" checkpoint, and still writes
the final checkpoint; nothing aborts. -/
theorem nan_loss_never_aborts (p maxE : ℕ) (h : p + 1 ≤ maxE) :
    trainRun (fun _ => FV.nan) p maxE
      = ⟨p + 1, List.replicate (p + 1) FV.nan, FV.fin 99999, [], true, true⟩ := by
  have hrun := runEpochs_flat_phase (fun _ => FV.nan) p (p + 1) maxE 0
    initialBestValLoss 0 [] [] h (by omega) (by omega) (fun i _ => rfl)
  rw [trainRun, hrun]
  simp [List.map_const', initialBestValLoss]

/-- C3 amended witness — patience 2, 100 allowed epochs, NaN throughout. -/
theorem nan_loss_never_aborts_witness :
    trainRun (fun _ => FV.nan) 2 100
      = ⟨3, List.replicate 3 FV.nan, FV.fin 99999, [], true, true⟩ :=
  nan_loss_never_aborts 2 100 (by omega)

/-- C4 — early stopping: if the validation loss achieves a new best at each
of the first `K` epochs (epoch 1's loss below the 99999 initialization,
then strictly decreasing) and never improves on the epoch-`K` best
afterwards, training halts after exactly `K + patience + 1` completed
epochs, the final checkpoint is written on that terminal path, and the
persisted final history has exactly `K + patience + 1` records. -/
theorem early_stopping_epoch_count (vq : ℕ → ℚ) (K p maxE : ℕ)
    (hK : 1 ≤ K)
    (h0 : vq 0 < 99999)
    (hdec : ∀ i, i + 1 < K → vq (i + 1) < vq i)
    (hflat : ∀ i, K ≤ i → ¬ vq i < vq (K - 1))
    (hmax : K + p + 1 ≤ maxE) :
    (trainRun (fun i => FV.fin (vq i)) p maxE).epochsCompleted = K + p + 1
    ∧ (trainRun (fun i => FV.fin (vq i)) p maxE).historyVal.length = K + p + 1
    ∧ (trainRun (fun i => FV.fin (vq i)) p maxE).finalSaved = true
    ∧ (trainRun (fun i => FV.fin (vq i)) p maxE).earlyStopped = true := by
  obtain ⟨K', rfl⟩ : ∃ K', K = K' + 1 := ⟨K - 1, by omega⟩
  set v : ℕ → FV := fun i => FV.fin (vq i) with hv
  have hA := runEpochs_improving_phase v p K' maxE 0 initialBestValLoss 0 [] []
    (by omega)
    (by simp only [hv, fvLt, initialBestValLoss, decide_eq_true_eq]; exact h0)
    (fun i hi => by
      simp only [hv, fvLt, decide_eq_true_eq, Nat.zero_add]
      exact hdec i (by omega))
  have hB := runEpochs_flat_phase v p (p + 1) (maxE - (K' + 1)) (0 + K' + 1)
    (v (0 + K')) 0
    ([] ++ (List.range (K' + 1)).map fun i => v (0 + i))
    ([] ++ (List.range (K' + 1)).map fun i => 0 + i)
    (by omega) (by omega) (by omega)
    (fun i hi => by
      simp only [hv, fvLt, decide_eq_false_iff_not, Nat.zero_add]
      have h := hflat (K' + 1 + i) (by omega)
      have he : K' + 1 - 1 = K' := by omega
      rw [he] at h
      exact h)
  have hrun : trainRun v p maxE
      = ⟨0 + K' + 1 + (p + 1),
         ([] ++ (List.range (K' + 1)).map fun i => v (0 + i))
           ++ (List.range (p + 1)).map fun i => v (0 + K' + 1 + i),
         v (0 + K'),
         [] ++ (List.range (K' + 1)).map fun i => 0 + i, true, true⟩ := by
    rw [trainRun, hA, hB]
  refine ⟨?_, ?_, ?_, ?_⟩ <;> rw [hrun]
  · show 0 + K' + 1 + (p + 1) = K' + 1 + p + 1
    omega
  · show (([] ++ (List.range (K' + 1)).map fun i => v (0 + i))
        ++ (List.range (p + 1)).map fun i => v (0 + K' + 1 + i)).length
        = K' + 1 + p + 1
    simp [List.length_append, List.length_map, List.length_range]
    omega

/-- C4 witness — losses 5 then 7 forever, `K = 1`, patience 1, 10 allowed
epochs: the run halts after 3 epochs with a 3-record history. -/
theorem early_stopping_epoch_count_witness :
    (trainRun (fun i => FV.fin (if i = 0 then 5 else 7)) 1 10).epochsCompleted = 3
    ∧ (trainRun (fun i => FV.fin (if i = 0 then 5 else 7)) 1 10).historyVal.length = 3
    ∧ (trainRun (fun i => FV.fin (if i = 0 then 5 else 7)) 1 10).finalSaved = true
    ∧ (trainRun (fun i => FV.fin (if i = 0 then 5 else 7)) 1 10).earlyStopped = true :=
  early_stopping_epoch_count (fun i => if i = 0 then 5 else 7) 1 1 10
    (by omega) (by norm_num)
    (fun i hi => absurd hi (by omega))
    (fun i hi => by
      have hne : i ≠ 0 := by omega
      simp only [hne, if_neg, ite_false]
      norm_num)
    (by omega)

/-- C5 amended — the controller initializes `best_val_loss` to the finite
literal `99999` (not `+∞`) and `epochs_since_improvement` to 0; the first
completed epoch's finite validation loss is persisted as the "best"
checkpoint if and only if it is below 99999 — not regardless of its
magnitude. -/
theorem first_epoch_best_iff_below_init (vq : ℕ → ℚ) (p maxE : ℕ)
    (h : 0 < maxE) :
    (vq 0 < 99999 ↔ 0 ∈ (trainRun (fun i => FV.fin (vq i)) p maxE).bestSaves)
    ∧ initialBestValLoss = FV.fin 99999 := by
  refine ⟨?_, rfl⟩
  obtain ⟨f, rfl⟩ : ∃ f, maxE = f + 1 := ⟨maxE - 1, by omega⟩
  set v : ℕ → FV := fun i => FV.fin (vq i) with hv
  constructor
  · intro hlt
    have him : fvLt (v 0) initialBestValLoss = true := by
      simp only [hv, fvLt, initialBestValLoss, decide_eq_true_eq]
      exact hlt
    rw [trainRun, runEpochs_step_improve v p f 0 initialBestValLoss 0 [] [] him]
    exact runEpochs_saves_mono v p f (0 + 1) (v 0) 0 ([] ++ [v 0]) ([] ++ [0]) 0
      (by simp)
  · intro hmem
    by_contra hlt
    have him : fvLt (v 0) initialBestValLoss = false := by
      simp only [hv, fvLt, initialBestValLoss, decide_eq_false_iff_not]
      exact hlt
    rw [trainRun] at hmem
    by_cases hp : p < 0 + 1
    · rw [runEpochs_step_noimprove_break v p f 0 initialBestValLoss 0 [] []
          him hp] at hmem
      simp at hmem
    · rw [runEpochs_step_noimprove_continue v p f 0 initialBestValLoss 0 [] []
          him (by omega)] at hmem
      rcases runEpochs_saves_lb v p f (0 + 1) initialBestValLoss (0 + 1)
          ([] ++ [v 0]) [] 0 hmem with h' | h'
      · simp at h'
      · omega

/-- C5 amended witness — first epoch loss 5 (below 99999) is saved as best;
the initialization value is the finite 99999. -/
theorem first_epoch_best_iff_below_init_witness :
    ((5 : ℚ) < 99999
      ↔ 0 ∈ (trainRun (fun i => FV.fin ((fun _ => (5 : ℚ)) i)) 0 1).bestSaves)
    ∧ initialBestValLoss = FV.fin 99999 :=
  first_epoch_best_iff_below_init (fun _ => 5) 0 1 (by omega)

/-- C6 — inference reconstruction (denoise.py lines 154-157): for the stored
model type `Gen-spectrum` the denoised signal is the model output; for a
residual model type (any stored tag other than `Gen-spectrum`, the spec's
`ResidualSpectrum`) it is the elementwise difference noisy − output; on the
spec's synthetic vectors this yields `[0.1,0.2,0.3]` and `[0.9,1.8,2.7]`. -/
theorem reconstruct_model_type_semantics
    (mt : String) (noisy preds : List ℚ) :
    reconstruct "Gen-spectrum" noisy preds = preds
    ∧ (mt ≠ "Gen-spectrum" →
        reconstruct mt noisy preds = List.zipWith (fun a b => a - b) noisy preds)
    ∧ reconstruct "Gen-spectrum" [1, 2, 3] [1/10, 2/10, 3/10]
        = [1/10, 2/10, 3/10]
    ∧ (mt ≠ "Gen-spectrum" →
        reconstruct mt [1, 2, 3] [1/10, 2/10, 3/10] = [9/10, 9/5, 27/10]) := by
  refine ⟨rfl, fun h => by simp [reconstruct, h], rfl, fun h => ?_⟩
  simp only [reconstruct, if_neg h]
  norm_num

/-- C6 witness — the theorem applied at the residual tag
`"Denoise-spectrum"` and the spec's synthetic vectors. -/
theorem reconstruct_model_type_semantics_witness :
    reconstruct "Denoise-spectrum" [1, 2, 3] [1/10, 2/10, 3/10]
      = [9/10, 9/5, 27/10] :=
  (reconstruct_model_type_semantics "Denoise-spectrum" [1, 2, 3]
      [1/10, 2/10, 3/10]).2.2.2 (by decide)

/-- C7 counterexample — an unrecognized stored model type (here
`"Bogus-type"`, neither `Gen-spectrum` nor a residual tag) does **not**
fail at reconstruction: denoise.py's `else` arm silently gives it the
residual denoising interpretation noisy − output. -/
theorem unrecognized_model_type_silent_cex :
    reconstruct "Bogus-type" [1, 2, 3] [1/2, 1/2, 1/2]
      = [1/2, 3/2, 5/2] := by
  have h : ("Bogus-type" : String) ≠ "Gen-spectrum" := by decide
  simp only [reconstruct, if_neg h]
  norm_num

/-- C7 amended — reconstruction is total: every model type other than
`Gen-spectrum`, recognized or not, is silently interpreted as residual;
the only unsupported-value failure at inference is the `model_name`
architecture check of denoise.py lines 112-120 (`return 1`). -/
theorem reconstruct_total_no_unsupported_error
    (mt : String) (noisy preds : List ℚ) :
    (mt ≠ "Gen-spectrum" →
      reconstruct mt noisy preds = List.zipWith (fun a b => a - b) noisy preds)
    ∧ (reconstruct mt noisy preds = preds
       ∨ reconstruct mt noisy preds = List.zipWith (fun a b => a - b) noisy preds)
    ∧ (mt ≠ "DnCNN" → mt ≠ "DnCNN-res" → selectModel mt = Except.error 1) := by
  refine ⟨fun h => by simp [reconstruct, h], ?_, fun h1 h2 => ?_⟩
  · by_cases h : mt = "Gen-spectrum"
    · exact Or.inl (by simp [reconstruct, h])
    · exact Or.inr (by simp [reconstruct, h])
  · simp [selectModel, h1, h2]

/-- C7 amended witness — the amended theorem applied at the unrecognized
tag `"Bogus-type"`. -/
theorem reconstruct_total_no_unsupported_error_witness :
    reconstruct "Bogus-type" [(1 : ℚ)] [(2 : ℚ)]
      = List.zipWith (fun a b => a - b) [(1 : ℚ)] [(2 : ℚ)]
    ∧ selectModel "Bogus-type" = Except.error 1 :=
  ⟨(reconstruct_total_no_unsupported_error "Bogus-type" [1] [2]).1 (by decide),
   (reconstruct_total_no_unsupported_error "Bogus-type" [1] [2]).2.2
     (by decide) (by decide)⟩

/-- C9 — denoise.py lines 52, 91-92: an absent seed (`None`) and an explicit
seed of `0` are both falsy and are replaced by the checkpoint's stored
training seed; every nonzero explicit seed overrides the stored seed. -/
theorem seed_fallback_semantics (t s : ℤ) :
    effectiveSeed none t = t
    ∧ effectiveSeed (some 0) t = t
    ∧ (s ≠ 0 → effectiveSeed (some s) t = s) := by
  refine ⟨rfl, rfl, fun h => by simp [effectiveSeed, h]⟩

/-- C9 witness — stored seed 7: an explicit 0 falls back to 7, the explicit
nonzero seed 5 overrides it. -/
theorem seed_fallback_semantics_witness :
    effectiveSeed (some 0) 7 = 7 ∧ effectiveSeed (some 5) 7 = 5 :=
  ⟨(seed_fallback_semantics 7 5).2.1,
   (seed_fallback_semantics 7 5).2.2 (by decide)⟩

/-- The selection shuffle emits a permutation of its input whenever the
fuel covers the input length. -/
theorem shuffleList_perm :
    ∀ (fuel : ℕ) (xs : List ℕ) (s : ℕ), xs.length ≤ fuel →
      (shuffleList fuel xs s).Perm xs := by
  intro fuel
  induction fuel with
  | zero =>
    intro xs s h
    have hnil : xs = [] := List.eq_nil_of_length_eq_zero (by omega)
    subst hnil
    exact List.Perm.refl _
  | succ f ih =>
    intro xs s h
    match xs with
    | [] => exact List.Perm.refl _
    | x :: rest =>
      simp only [shuffleList]
      have hkl : lcgNext s % (x :: rest).length < (x :: rest).length :=
        Nat.mod_lt _ (by simp)
      generalize hgk : lcgNext s % (x :: rest).length = k
      rw [hgk] at hkl
      have hlen : ((x :: rest).take k ++ (x :: rest).drop (k + 1)).length ≤ f := by
        rw [List.length_append, List.length_take, List.length_drop]
        have hlf : (x :: rest).length ≤ f + 1 := h
        omega
      have h1 : (x :: rest).getD k 0 = (x :: rest)[k] :=
        List.getD_eq_getElem _ 0 hkl
      have h2 : (x :: rest).drop k = (x :: rest)[k] :: (x :: rest).drop (k + 1) :=
        List.drop_eq_getElem_cons hkl
      have hmid : ((x :: rest)[k]
            :: ((x :: rest).take k ++ (x :: rest).drop (k + 1))).Perm (x :: rest) := by
        have hp := @List.perm_middle ℕ ((x :: rest)[k]) ((x :: rest).take k)
          ((x :: rest).drop (k + 1))
        rw [← h2, List.take_append_drop] at hp
        exact hp.symm
      rw [h1]
      exact (List.Perm.cons _ (ih _ _ hlen)).trans hmid

theorem permIndices_perm (n seed : ℕ) :
    (permIndices n seed).Perm (List.range n) :=
  shuffleList_perm n (List.range n) seed (by rw [List.length_range])

/-- C8 — the split is deterministic and value-independent: the index
partition is a function of the dataset length, the seed and the fixed
fraction only, so any two equal-length datasets get the identical
train/validation index partition (in particular, the inference-time split
with the stored training seed reproduces the training-time validation
indices), the two index blocks partition `[0, n)`, and the selected
validation rows are exactly the rows at the validation indices. -/
theorem split_deterministic_value_independent (n seed : ℕ)
    (xs ys : List (List ℚ)) (h : xs.length = ys.length) :
    valIndices xs.length seed = valIndices ys.length seed
    ∧ trainIndices xs.length seed = trainIndices ys.length seed
    ∧ (trainIndices n seed ++ valIndices n seed).Perm (List.range n)
    ∧ ∀ noisy clean : List (List ℚ),
        (train_test_split noisy clean seed).2.1
          = selectRows noisy (valIndices noisy.length seed) := by
  refine ⟨by rw [h], by rw [h], ?_, fun _ _ => rfl⟩
  have h2 : valIndices n seed ++ trainIndices n seed = permIndices n seed :=
    List.take_append_drop _ _
  have h3 : (valIndices n seed ++ trainIndices n seed).Perm (List.range n) := by
    rw [h2]
    exact permIndices_perm n seed
  exact List.Perm.trans List.perm_append_comm h3

/-- C8 witness — two different equal-length (12-row) datasets, seed 42:
same validation indices, and the index blocks partition `[0, 12)`. -/
theorem split_deterministic_value_independent_witness :
    valIndices (List.replicate 12 [(1 : ℚ)]).length 42
      = valIndices (List.replicate 12 [(2 : ℚ)]).length 42
    ∧ trainIndices (List.replicate 12 [(1 : ℚ)]).length 42
      = trainIndices (List.replicate 12 [(2 : ℚ)]).length 42
    ∧ (trainIndices 12 42 ++ valIndices 12 42).Perm (List.range 12)
    ∧ ∀ noisy clean : List (List ℚ),
        (train_test_split noisy clean 42).2.1
          = selectRows noisy (valIndices noisy.length 42) :=
  split_deterministic_value_independent 12 42 (List.replicate 12 [(1 : ℚ)])
    (List.replicate 12 [(2 : ℚ)]) (by simp)

theorem zipWith_congr_mem {α β γ : Type} (f g : α → β → γ) :
    ∀ (l₁ : List α) (l₂ : List β), (∀ a ∈ l₁, ∀ b, f a b = g a b) →
      List.zipWith f l₁ l₂ = List.zipWith g l₁ l₂ := by
  intro l₁
  induction l₁ with
  | nil =>
    intro l₂ _
    rfl
  | cons a t ih =>
    intro l₂ h
    cases l₂ with
    | nil => rfl
    | cons b t₂ =>
      simp only [List.zipWith_cons_cons]
      rw [h a (by simp) b, ih t₂ (fun a' ha' b' => h a' (by simp [ha']) b')]

/-- C10 — standardization touches only the model's input, never targets or
outputs: the training batch loss and the whole inference-batch output
(reconstruction and both metric argument streams) are invariant under any
change of `(mean, std)` that leaves the standardized inputs unchanged (so
the raw clean targets enter the loss un-standardized and the raw model
output is used directly, never de-standardized); the noisy-vs-clean
baseline metric reads the raw clean and raw noisy signals; and the
residual reconstruction subtracts the raw model output from the raw
(un-standardized) noisy signal. -/
theorem standardization_input_only (model : List ℚ → List ℚ) (mt : String)
    (mean std mean' std' : ℚ) (noisyB cleanB : List (List ℚ))
    (h : ∀ x ∈ noisyB,
      standardizeList mean std x = standardizeList mean' std' x) :
    trainBatchLoss model mean std noisyB cleanB
      = trainBatchLoss model mean' std' noisyB cleanB
    ∧ inferBatch mt mean std model noisyB cleanB
      = inferBatch mt mean' std' model noisyB cleanB
    ∧ (inferBatch mt mean std model noisyB cleanB).sqErrNoisy
      = perExampleSqErr cleanB noisyB
    ∧ (mt ≠ "Gen-spectrum" →
        (inferBatch mt mean std model noisyB cleanB).denoised
          = List.zipWith (fun x p => List.zipWith (fun a b => a - b) x p)
              noisyB (noisyB.map fun x => model (standardizeList mean std x))) := by
  have hpreds : (noisyB.map fun x => model (standardizeList mean std x))
      = noisyB.map fun x => model (standardizeList mean' std' x) :=
    List.map_congr_left (fun x hx => by rw [h x hx])
  refine ⟨?_, ?_, rfl, fun hmt => ?_⟩
  · unfold trainBatchLoss
    rw [zipWith_congr_mem _ _ noisyB cleanB (fun x hx y => by rw [h x hx])]
  · unfold inferBatch
    rw [hpreds]
  · show (if mt = "Gen-spectrum" then _ else _) = _
    rw [if_neg hmt]

/-- C10 witness — identity model, one-row batch whose standardized input is
`[0]` under both `(0, 1)` and `(0, 5)`: loss and inference output coincide
although the std parameters differ, so the output is not de-standardized. -/
theorem standardization_input_only_witness :
    trainBatchLoss (fun x => x) 0 1 [[0]] [[1]]
      = trainBatchLoss (fun x => x) 0 5 [[0]] [[1]]
    ∧ inferBatch "Denoise-spectrum" 0 1 (fun x => x) [[0]] [[1]]
      = inferBatch "Denoise-spectrum" 0 5 (fun x => x) [[0]] [[1]] := by
  have hw : ∀ x ∈ [[(0 : ℚ)]], standardizeList 0 1 x = standardizeList 0 5 x := by
    intro x hx
    simp only [List.mem_singleton] at hx
    subst hx
    norm_num [standardizeList]
  exact ⟨(standardization_input_only (fun x => x) "Denoise-spectrum" 0 1 0 5
            [[0]] [[1]] hw).1,
         (standardization_input_only (fun x => x) "Denoise-spectrum" 0 1 0 5
            [[0]] [[1]] hw).2.1⟩

end GammaSpectra
